import Mathlib

/-!
Verification of the git-dirupdate orchestration core.

The definitions below are a shallow embedding of the repository's Go
sources.  The external git binary is modelled by a GitEnv value giving, for
one repository working directory, the result each subprocess invocation
would produce there; every embedded function additionally returns the list
of subprocess invocations it issued, in order.
-/

namespace GitExt

/-- A git subprocess invocation issued by the tool inside one repository's
working directory. -/
inductive GitCmd where
  | status
  | stash
  | fetchAll
  | branchList
  | checkout (branch : String)
  | pull
deriving DecidableEq, Repr

/-- Result of one git subprocess run: success, or an execution error
carrying a message. -/
abbrev CmdResult := Except String Unit

/-- Behaviour of the git binary for one repository working directory: what
each subprocess invocation would produce there.  Output-producing commands
give their raw textual output on success. -/
structure GitEnv where
  statusOut : Except String String
  stashRes : CmdResult
  fetchRes : CmdResult
  branchOut : Except String String
  checkoutRes : String → CmdResult
  pullRes : String → CmdResult

/-- Run-wide configuration, set once from the parsed flags. -/
structure Config where
  requestedBranches : List String
  allBranches : Bool
  stashChanges : Bool
deriving DecidableEq, Repr

/-- Errors produced by the per-repository procedure: a subprocess execution
error, or one of the two sentinel conditions errStashNotAllowed and
errNoBranch. -/
inductive UpdateErr where
  | exec (msg : String)
  | stashNotAllowed
  | noBranch
deriving DecidableEq, Repr

/-- Embeds stashIfDirty: run the status query; empty output (clean) is
success; dirty with stashing disabled is the errStashNotAllowed condition;
dirty with stashing enabled runs the stash subprocess. -/
def stashIfDirty (cfg : Config) (env : GitEnv) :
    Except UpdateErr Unit × List GitCmd :=
  match env.statusOut with
  | .error m => (.error (.exec m), [.status])
  | .ok changes =>
    if changes = "" then (.ok (), [.status])
    else if !cfg.stashChanges then (.error .stashNotAllowed, [.status])
    else
      match env.stashRes with
      | .error m => (.error (.exec m), [.status, .stash])
      | .ok _ => (.ok (), [.status, .stash])

/-- Checks whether the character list cs begins with the character list
given first.  Used to embed the strings.HasPrefix tests on branch lines. -/
def beginsWith : List Char → List Char → Bool
  | [], _ => true
  | _ :: _, [] => false
  | c :: cs, d :: ds => c = d && beginsWith cs ds

/-- Embeds strings.HasPrefix on strings, via the underlying character
lists so that it evaluates inside the kernel. -/
def strBeginsWith (s pre : String) : Bool := beginsWith pre.data s.data

/-- Embeds strings.Contains for a single-character pattern. -/
def strHasChar (s : String) (c : Char) : Bool := s.data.contains c

/-- The per-line discard test of fetchBranchesToUpdate: empty lines, lines
beginning with the refs/, heads/ or origin/ prefixes, and lines containing
a space character are skipped as non-branch noise. -/
def discardLine (branch : String) : Bool :=
  branch == "" ||
    strBeginsWith branch "refs/" ||
    strBeginsWith branch "heads/" ||
    strBeginsWith branch "origin/" ||
    strHasChar branch ' '

/-- One iteration of the selection loop of fetchBranchesToUpdate: a
discarded line leaves the accumulator unchanged; otherwise, when not in
all-branches mode the inner loop appends the line once per matching entry
of the requested list, and in all-branches mode the line is appended
unconditionally. -/
def selectStep (cfg : Config) (acc : List String) (branch : String) :
    List String :=
  if discardLine branch then acc
  else if !cfg.allBranches then
    cfg.requestedBranches.foldl
      (fun acc2 active => if branch == active then acc2 ++ [branch] else acc2)
      acc
  else acc ++ [branch]

/-- The pure core of fetchBranchesToUpdate: the selection computed from the
branch-listing lines. -/
def fetchBranchesCore (cfg : Config) (lines : List String) : List String :=
  lines.foldl (selectStep cfg) []

/-- Embeds strings.Split with the newline separator, over the character
list of the output.  Splitting the empty string yields one empty field, as
in Go. -/
def splitLinesList : List Char → List String
  | [] => [""]
  | c :: rest =>
    if c = '\n' then "" :: splitLinesList rest
    else
      match splitLinesList rest with
      | [] => [String.mk [c]]
      | line :: more => String.mk (c :: line.data) :: more

/-- Splits subprocess output into lines, as strings.Split with newline. -/
def splitLines (s : String) : List String := splitLinesList s.data

/-- Embeds fetchBranchesToUpdate: fetch all remotes, list local branches,
filter and select; an empty selection is the errNoBranch condition, never
an empty success. -/
def fetchBranchesToUpdate (cfg : Config) (env : GitEnv) :
    Except UpdateErr (List String) × List GitCmd :=
  match env.fetchRes with
  | .error m => (.error (.exec m), [.fetchAll])
  | .ok _ =>
    match env.branchOut with
    | .error m => (.error (.exec m), [.fetchAll, .branchList])
    | .ok out =>
      let bl := fetchBranchesCore cfg (splitLines out)
      if bl = [] then (.error .noBranch, [.fetchAll, .branchList])
      else (.ok bl, [.fetchAll, .branchList])

/-- Embeds updateBranch: check out the branch, then pull; a failing
checkout returns its error without attempting the pull. -/
def updateBranch (env : GitEnv) (branch : String) :
    Except UpdateErr Unit × List GitCmd :=
  match env.checkoutRes branch with
  | .error m => (.error (.exec m), [.checkout branch])
  | .ok _ =>
    match env.pullRes branch with
    | .error m => (.error (.exec m), [.checkout branch, .pull])
    | .ok _ => (.ok (), [.checkout branch, .pull])

/-- Holds exactly when updateBranch on this branch returns an error in the
given environment. -/
def updateFails (env : GitEnv) (branch : String) : Bool :=
  match updateBranch env branch with
  | (.error _, _) => true
  | (.ok _, _) => false

/-- The per-branch loop of updateRepository: every selected branch is
attempted in order, and the names whose update failed are collected in
order; a failure never stops the loop. -/
def perBranchLoop (env : GitEnv) : List String → List String × List GitCmd
  | [] => ([], [])
  | branch :: rest =>
    match updateBranch env branch with
    | (.error _, t) =>
      match perBranchLoop env rest with
      | (failedRest, tRest) => (branch :: failedRest, t ++ tRest)
    | (.ok _, t) =>
      match perBranchLoop env rest with
      | (failedRest, tRest) => (failedRest, t ++ tRest)

/-- The terminal event updateRepository reports for one repository through
the spinner: Fail, the SKIPPED or NO-BRANCH info badges, the
partial-failure warning with the succeeded count, the total and the failed
branch names, or plain success with the total. -/
inductive VizEvent where
  | fail
  | infoSkipped
  | infoNoBranch
  | warning (succeeded : Nat) (total : Nat) (failedNames : List String)
  | success (total : Nat)
deriving DecidableEq, Repr

/-- Embeds updateRepository: stash-or-skip, fetch and select branches, run
the per-branch loop, aggregate.  Returns the reported event, the Go return
value (the error, if any — discarded by the caller), and the subprocess
invocations issued. -/
def updateRepository (cfg : Config) (env : GitEnv) :
    VizEvent × Option UpdateErr × List GitCmd :=
  match stashIfDirty cfg env with
  | (.error .stashNotAllowed, t1) => (.infoSkipped, some .stashNotAllowed, t1)
  | (.error e, t1) => (.fail, some e, t1)
  | (.ok _, t1) =>
    match fetchBranchesToUpdate cfg env with
    | (.error .noBranch, t2) => (.infoNoBranch, some .noBranch, t1 ++ t2)
    | (.error e, t2) => (.fail, some e, t1 ++ t2)
    | (.ok activeBranches, t2) =>
      match perBranchLoop env activeBranches with
      | (failedUpdates, t3) =>
        if failedUpdates.length = activeBranches.length then
          (.fail, none, t1 ++ t2 ++ t3)
        else if 0 < failedUpdates.length then
          (.warning (activeBranches.length - failedUpdates.length)
            activeBranches.length failedUpdates, none, t1 ++ t2 ++ t3)
        else
          (.success activeBranches.length, none, t1 ++ t2 ++ t3)

/-- The repository loop of the root command: each repository is updated in
order and updateRepository's returned error is discarded. -/
def rootLoop (cfg : Config) : List GitEnv → List VizEvent
  | [] => []
  | env :: rest => (updateRepository cfg env).1 :: rootLoop cfg rest

/-- The run-level result of the root command after the repository loop:
the loop discards every per-repository error and the command returns nil,
whatever the individual outcomes were. -/
def runLoopResult (cfg : Config) (envs : List GitEnv) :
    Except String Unit × List VizEvent :=
  (.ok (), rootLoop cfg envs)

/-- Embeds the repository struct of repository.go: a working-tree path and
the remoteUpdated memo flag. -/
structure Repository where
  path : String
  remoteUpdated : Bool
deriving DecidableEq, Repr

/-- Embeds newRepository: only the path is supplied, so remoteUpdated
starts at the zero value false. -/
def newRepository (path : String) : Repository :=
  { path := path, remoteUpdated := false }

/-- Embeds updateRemote of repository.go: when the memo flag is set the
call is a no-op returning success; otherwise the fetch-all subprocess
runs.  The source never assigns the flag, so the repository value is
returned unchanged in both arms. -/
def updateRemote (env : GitEnv) (r : Repository) :
    CmdResult × Repository × List GitCmd :=
  if r.remoteUpdated then (.ok (), r, [])
  else (env.fetchRes, r, [.fetchAll])

/-- Embeds IsDirty of repository.go: dirty iff the status output is
non-empty. -/
def repoIsDirty (env : GitEnv) (r : Repository) :
    Except String Bool × Repository × List GitCmd :=
  match env.statusOut with
  | .error m => (.error m, r, [.status])
  | .ok changes => (.ok (changes != ""), r, [.status])

/-- Embeds Stash of repository.go: runs the stash subprocess
unconditionally. -/
def repoStash (env : GitEnv) (r : Repository) :
    CmdResult × Repository × List GitCmd :=
  (env.stashRes, r, [.stash])

/-- Embeds the updateBranch method of repository.go: checkout, then
pull. -/
def repoUpdateBranch (env : GitEnv) (r : Repository) (branch : String) :
    CmdResult × Repository × List GitCmd :=
  match env.checkoutRes branch with
  | .error m => (.error m, r, [.checkout branch])
  | .ok _ =>
    match env.pullRes branch with
    | .error m => (.error m, r, [.checkout branch, .pull])
    | .ok _ => (.ok (), r, [.checkout branch, .pull])

/-- Embeds GetAllBranches of repository.go: updateRemote, then the
branch-listing subprocess, keeping the non-empty lines. -/
def repoGetAllBranches (env : GitEnv) (r : Repository) :
    Except String (List String) × Repository × List GitCmd :=
  match updateRemote env r with
  | (.error m, r1, t) => (.error m, r1, t)
  | (.ok _, r1, t) =>
    match env.branchOut with
    | .error m => (.error m, r1, t ++ [.branchList])
    | .ok out =>
      (.ok ((splitLines out).filter (fun b => !(b == ""))), r1,
        t ++ [.branchList])

/-- The branch loop of the Update method of repository.go: each branch in
turn, stopping at the first failure. -/
def repoUpdateList (env : GitEnv) :
    Repository → List String → CmdResult × Repository × List GitCmd
  | r, [] => (.ok (), r, [])
  | r, b :: rest =>
    match repoUpdateBranch env r b with
    | (.error m, r1, t) => (.error m, r1, t)
    | (.ok _, r1, t) =>
      match repoUpdateList env r1 rest with
      | (res, r2, t2) => (res, r2, t ++ t2)

/-- Embeds Update of repository.go: updateRemote, then the branch loop. -/
def repoUpdate (env : GitEnv) (r : Repository) (branches : List String) :
    CmdResult × Repository × List GitCmd :=
  match updateRemote env r with
  | (.error m, r1, t) => (.error m, r1, t)
  | (.ok _, r1, t) =>
    match repoUpdateList env r1 branches with
    | (res, r2, t2) => (res, r2, t ++ t2)

/-- A number of successive updateRemote calls on the same repository
value, threading the repository state and collecting the subprocess
trace. -/
def iterUpdateRemote (env : GitEnv) (r : Repository) :
    Nat → Repository × List GitCmd
  | 0 => (r, [])
  | n + 1 =>
    match updateRemote env r with
    | (_, r1, t) =>
      match iterUpdateRemote env r1 n with
      | (r2, t2) => (r2, t ++ t2)

/-- Closed form of one selection-loop iteration, used in proofs. -/
def lineSelection (cfg : Config) (branch : String) : List String :=
  if discardLine branch then []
  else if cfg.allBranches then [branch]
  else List.replicate (cfg.requestedBranches.count branch) branch

/-- Modelled from the spec: the spec's description of explicit-mode
selection — the subset of the filtered branch list whose name appears in
the requested list, in the filtered list's order. -/
def specExplicitSelection (requested filtered : List String) :
    List String :=
  filtered.filter (fun b => requested.contains b)

/-- Modelled from the spec: the spec's description of the discard test,
with containing embedded whitespace read as containing any whitespace
character. -/
def specDiscardLine (branch : String) : Bool :=
  branch == "" ||
    strBeginsWith branch "refs/" ||
    strBeginsWith branch "heads/" ||
    strBeginsWith branch "origin/" ||
    branch.data.any Char.isWhitespace

/-- All-branches configuration used in concrete scenarios. -/
def cfgAll : Config :=
  { requestedBranches := ["main", "master"], allBranches := true,
    stashChanges := false }

/-- Default explicit-mode configuration with stashing disabled. -/
def cfgMainMaster : Config :=
  { requestedBranches := ["main", "master"], allBranches := false,
    stashChanges := false }

/-- Explicit-mode configuration requesting the same name twice. -/
def cfgDup : Config :=
  { requestedBranches := ["main", "main"], allBranches := false,
    stashChanges := false }

/-- Explicit-mode configuration requesting one name twice and another
once. -/
def cfgDupDev : Config :=
  { requestedBranches := ["main", "main", "dev"], allBranches := false,
    stashChanges := false }

/-- A clean repository with branches a, b, c where only the checkout of b
fails. -/
def envC1 : GitEnv :=
  { statusOut := .ok ""
    stashRes := .ok ()
    fetchRes := .ok ()
    branchOut := .ok "a\nb\nc\n"
    checkoutRes := fun b => if b == "b" then .error "checkout failed" else .ok ()
    pullRes := fun _ => .ok () }

/-- A clean repository with branches a and b where every checkout
fails. -/
def envFailAll : GitEnv :=
  { statusOut := .ok ""
    stashRes := .ok ()
    fetchRes := .ok ()
    branchOut := .ok "a\nb"
    checkoutRes := fun _ => .error "boom"
    pullRes := fun _ => .ok () }

/-- A clean repository where every operation succeeds. -/
def envFetchOk : GitEnv :=
  { statusOut := .ok ""
    stashRes := .ok ()
    fetchRes := .ok ()
    branchOut := .ok "main"
    checkoutRes := fun _ => .ok ()
    pullRes := fun _ => .ok () }

/-- A dirty repository (non-empty status output) where every operation
succeeds. -/
def envDirtyW : GitEnv :=
  { statusOut := .ok "M x.txt"
    stashRes := .ok ()
    fetchRes := .ok ()
    branchOut := .ok "main"
    checkoutRes := fun _ => .ok ()
    pullRes := fun _ => .ok () }

/-- A clean repository with one space-containing listing line and one
real branch line. -/
def envDupLines : GitEnv :=
  { statusOut := .ok ""
    stashRes := .ok ()
    fetchRes := .ok ()
    branchOut := .ok "x y\nmain"
    checkoutRes := fun _ => .ok ()
    pullRes := fun _ => .ok () }

/-- A clean repository whose branch listing matches no requested name. -/
def envNoMatch : GitEnv :=
  { statusOut := .ok ""
    stashRes := .ok ()
    fetchRes := .ok ()
    branchOut := .ok "dev\nfeature-x"
    checkoutRes := fun _ => .ok ()
    pullRes := fun _ => .ok () }

/-- A clean repository where every checkout fails with a named error. -/
def envCheckoutFail : GitEnv :=
  { statusOut := .ok ""
    stashRes := .ok ()
    fetchRes := .ok ()
    branchOut := .ok "main"
    checkoutRes := fun _ => .error "conflict"
    pullRes := fun _ => .ok () }

/-- The inner requested-names loop appends the kept line once per matching
occurrence in the requested list. -/
theorem innerFold_eq_replicate (b : String) (requested : List String) :
    ∀ acc : List String,
      requested.foldl
        (fun acc2 active => if b == active then acc2 ++ [b] else acc2) acc
        = acc ++ List.replicate (requested.count b) b := by
  induction requested with
  | nil => intro acc; simp
  | cons x rest ih =>
    intro acc
    simp only [List.foldl_cons]
    by_cases h : b = x
    · subst h
      rw [if_pos (by simp), ih, List.count_cons_self, List.replicate_succ]
      simp
    · rw [if_neg (by simp [h]), ih, List.count_cons_of_ne h]

/-- One selection-loop iteration appends the closed-form contribution of
the line. -/
theorem selectStep_eq (cfg : Config) (acc : List String) (branch : String) :
    selectStep cfg acc branch = acc ++ lineSelection cfg branch := by
  by_cases hd : discardLine branch = true
  · simp [selectStep, lineSelection, hd]
  · simp only [Bool.not_eq_true] at hd
    by_cases ha : cfg.allBranches = true
    · simp [selectStep, lineSelection, hd, ha]
    · simp only [Bool.not_eq_true] at ha
      unfold selectStep lineSelection
      rw [hd, ha]
      simpa using innerFold_eq_replicate branch cfg.requestedBranches acc

/-- The selection fold factors through the accumulator. -/
theorem foldl_selectStep_append (cfg : Config) :
    ∀ (lines : List String) (acc : List String),
      lines.foldl (selectStep cfg) acc
        = acc ++ lines.foldl (selectStep cfg) [] := by
  intro lines
  induction lines with
  | nil => intro acc; simp
  | cons l ls ih =>
    intro acc
    simp only [List.foldl_cons]
    rw [ih (selectStep cfg acc l), ih (selectStep cfg [] l),
      selectStep_eq, selectStep_eq]
    simp

/-- Unfolding the selection one listing line at a time. -/
theorem fetchBranchesCore_cons (cfg : Config) (l : String)
    (ls : List String) :
    fetchBranchesCore cfg (l :: ls)
      = lineSelection cfg l ++ fetchBranchesCore cfg ls := by
  unfold fetchBranchesCore
  simp only [List.foldl_cons]
  rw [foldl_selectStep_append, selectStep_eq]
  simp

/-- In all-branches mode the selection is exactly the filtered listing. -/
theorem fetchBranchesCore_allBranches (cfg : Config)
    (hall : cfg.allBranches = true) :
    ∀ lines : List String,
      fetchBranchesCore cfg lines
        = lines.filter (fun l => !(discardLine l)) := by
  intro lines
  induction lines with
  | nil => rfl
  | cons l ls ih =>
    rw [fetchBranchesCore_cons, ih]
    by_cases hd : discardLine l = true
    · simp [lineSelection, hd, List.filter_cons]
    · simp only [Bool.not_eq_true] at hd
      simp [lineSelection, hd, hall, List.filter_cons]

/-- In explicit mode with a duplicate-free requested list the selection is
the spec's subset of the filtered listing. -/
theorem fetchBranchesCore_explicit_nodup (cfg : Config)
    (hall : cfg.allBranches = false)
    (hnd : cfg.requestedBranches.Nodup) :
    ∀ lines : List String,
      fetchBranchesCore cfg lines
        = specExplicitSelection cfg.requestedBranches
            (lines.filter (fun l => !(discardLine l))) := by
  intro lines
  induction lines with
  | nil => rfl
  | cons l ls ih =>
    rw [fetchBranchesCore_cons, ih]
    unfold specExplicitSelection
    by_cases hd : discardLine l = true
    · simp [lineSelection, hd, List.filter_cons]
    · simp only [Bool.not_eq_true] at hd
      by_cases hm : l ∈ cfg.requestedBranches
      · have hc : cfg.requestedBranches.count l = 1 :=
          List.count_eq_one_of_mem hnd hm
        simp [lineSelection, hd, hall, hc, List.filter_cons, hm]
      · have hc : cfg.requestedBranches.count l = 0 :=
          List.count_eq_zero_of_not_mem hm
        simp [lineSelection, hd, hall, hc, List.filter_cons, hm]

/-- In explicit mode each occurrence of a kept listing line contributes
one copy per occurrence of its name in the requested list. -/
theorem fetchBranchesCore_count (cfg : Config) (b : String)
    (hall : cfg.allBranches = false) (hd : discardLine b = false) :
    ∀ lines : List String,
      (fetchBranchesCore cfg lines).count b
        = lines.count b * cfg.requestedBranches.count b := by
  intro lines
  induction lines with
  | nil => simp [fetchBranchesCore]
  | cons l ls ih =>
    rw [fetchBranchesCore_cons, List.count_append, ih]
    by_cases he : l = b
    · subst he
      simp only [lineSelection, hd, Bool.false_eq_true, if_false, hall,
        List.count_replicate_self, List.count_cons_self]
      ring
    · have h0 : (lineSelection cfg l).count b = 0 := by
        by_cases hdl : discardLine l = true
        · simp [lineSelection, hdl]
        · simp only [Bool.not_eq_true] at hdl
          simp [lineSelection, hdl, hall, List.count_replicate, he]
      rw [h0, List.count_cons_of_ne (Ne.symm he)]
      simp

/-- updateBranch produces one of three shapes: checkout failure, pull
failure, or success. -/
theorem updateBranch_shape (env : GitEnv) (b : String) :
    (∃ m, updateBranch env b = (.error (.exec m), [.checkout b])) ∨
    (∃ m, updateBranch env b = (.error (.exec m), [.checkout b, .pull])) ∨
    updateBranch env b = (.ok (), [.checkout b, .pull]) := by
  unfold updateBranch
  cases env.checkoutRes b with
  | error m => exact Or.inl ⟨m, rfl⟩
  | ok u =>
    cases env.pullRes b with
    | error m => exact Or.inr (Or.inl ⟨m, rfl⟩)
    | ok u2 => exact Or.inr (Or.inr rfl)

/-- The updateBranch trace always begins with the checkout of the
branch. -/
theorem updateBranch_trace_head (env : GitEnv) (b : String) :
    ∃ ts, (updateBranch env b).2 = GitCmd.checkout b :: ts := by
  rcases updateBranch_shape env b with ⟨m, h⟩ | ⟨m, h⟩ | h <;> rw [h]
  · exact ⟨[], rfl⟩
  · exact ⟨[.pull], rfl⟩
  · exact ⟨[.pull], rfl⟩

/-- When the checkout succeeds, the updateBranch trace is exactly
checkout then pull. -/
theorem updateBranch_trace_of_checkout_ok (env : GitEnv) (b : String)
    (h : env.checkoutRes b = .ok ()) :
    (updateBranch env b).2 = [GitCmd.checkout b, GitCmd.pull] := by
  unfold updateBranch
  rw [h]
  cases env.pullRes b <;> rfl

/-- The updateBranch trace holds the checkout of a branch exactly when it
is the branch being updated. -/
theorem updateBranch_count_checkout (env : GitEnv) (x b : String) :
    (updateBranch env x).2.count (GitCmd.checkout b)
      = if x = b then 1 else 0 := by
  rcases updateBranch_shape env x with ⟨m, h⟩ | ⟨m, h⟩ | h <;> rw [h] <;>
    by_cases hxb : x = b <;>
    simp [hxb, List.count_cons, List.count_nil]

/-- The updateBranch trace never stashes. -/
theorem updateBranch_no_stash (env : GitEnv) (b : String) :
    GitCmd.stash ∉ (updateBranch env b).2 := by
  rcases updateBranch_shape env b with ⟨m, h⟩ | ⟨m, h⟩ | h <;> rw [h] <;>
    simp

/-- The failed-updates list of the per-branch loop is exactly the
selected branches whose update fails, in order. -/
theorem perBranchLoop_failed (env : GitEnv) :
    ∀ bs : List String,
      (perBranchLoop env bs).1 = bs.filter (updateFails env) := by
  intro bs
  induction bs with
  | nil => rfl
  | cons b rest ih =>
    rcases hb : updateBranch env b with ⟨res, t⟩
    rcases hr : perBranchLoop env rest with ⟨fr, tr⟩
    rw [hr] at ih
    cases res with
    | error e =>
      have hf : updateFails env b = true := by
        simp [updateFails, hb]
      simp [perBranchLoop, hb, hr, List.filter_cons, hf, ih]
    | ok u =>
      have hf : updateFails env b = false := by
        simp [updateFails, hb]
      simp [perBranchLoop, hb, hr, List.filter_cons, hf, ih]

/-- Every selected branch is attempted: its checkout appears in the
per-branch loop's trace. -/
theorem perBranchLoop_checkout_mem (env : GitEnv) :
    ∀ (bs : List String) (b : String), b ∈ bs →
      GitCmd.checkout b ∈ (perBranchLoop env bs).2 := by
  intro bs
  induction bs with
  | nil => intro b h; cases h
  | cons x rest ih =>
    intro b hb
    rcases hx : updateBranch env x with ⟨res, t⟩
    rcases hr : perBranchLoop env rest with ⟨fr, tr⟩
    have htr : (perBranchLoop env (x :: rest)).2 = t ++ tr := by
      cases res <;> simp [perBranchLoop, hx, hr]
    rw [htr]
    rcases List.mem_cons.1 hb with hbx | hbr
    · subst hbx
      obtain ⟨ts, hts⟩ := updateBranch_trace_head env b
      rw [hx] at hts
      simp only at hts
      rw [hts]
      simp
    · have := ih b hbr
      rw [hr] at this
      simp only at this
      simp [List.mem_append, this]

/-- The per-branch loop checks a branch out once per occurrence in the
selection. -/
theorem perBranchLoop_count_checkout (env : GitEnv) (b : String) :
    ∀ bs : List String,
      (perBranchLoop env bs).2.count (GitCmd.checkout b) = bs.count b := by
  intro bs
  induction bs with
  | nil => simp [perBranchLoop]
  | cons x rest ih =>
    rcases hx : updateBranch env x with ⟨res, t⟩
    rcases hr : perBranchLoop env rest with ⟨fr, tr⟩
    rw [hr] at ih
    have hcnt := updateBranch_count_checkout env x b
    rw [hx] at hcnt
    have htr : (perBranchLoop env (x :: rest)).2 = t ++ tr := by
      cases res <;> simp [perBranchLoop, hx, hr]
    rw [htr, List.count_append]
    simp only at hcnt ih
    rw [hcnt, ih]
    by_cases hxb : x = b
    · subst hxb
      simp [List.count_cons_self]
      omega
    · rw [List.count_cons_of_ne (Ne.symm hxb)]
      simp [hxb]

/-- When every checkout succeeds, the per-branch loop pulls once per
selected branch. -/
theorem perBranchLoop_count_pull (env : GitEnv) :
    ∀ bs : List String, (∀ x ∈ bs, env.checkoutRes x = .ok ()) →
      (perBranchLoop env bs).2.count GitCmd.pull = bs.length := by
  intro bs
  induction bs with
  | nil => intro h; simp [perBranchLoop]
  | cons x rest ih =>
    intro h
    have hx0 : env.checkoutRes x = .ok () := h x (List.mem_cons_self x rest)
    have ht := updateBranch_trace_of_checkout_ok env x hx0
    rcases hx : updateBranch env x with ⟨res, t⟩
    rcases hr : perBranchLoop env rest with ⟨fr, tr⟩
    rw [hx] at ht
    simp only at ht
    have ihr := ih (fun y hy => h y (List.mem_cons_of_mem x hy))
    rw [hr] at ihr
    simp only at ihr
    have htr : (perBranchLoop env (x :: rest)).2 = t ++ tr := by
      cases res <;> simp [perBranchLoop, hx, hr]
    rw [htr, List.count_append, ht, ihr]
    simp [List.count_cons]
    omega

/-- The per-branch loop never stashes. -/
theorem perBranchLoop_no_stash (env : GitEnv) :
    ∀ bs : List String, GitCmd.stash ∉ (perBranchLoop env bs).2 := by
  intro bs
  induction bs with
  | nil => simp [perBranchLoop]
  | cons x rest ih =>
    rcases hx : updateBranch env x with ⟨res, t⟩
    rcases hr : perBranchLoop env rest with ⟨fr, tr⟩
    rw [hr] at ih
    have hnt := updateBranch_no_stash env x
    rw [hx] at hnt
    simp only at hnt ih
    have htr : (perBranchLoop env (x :: rest)).2 = t ++ tr := by
      cases res <;> simp [perBranchLoop, hx, hr]
    rw [htr]
    simp [List.mem_append, hnt, ih]

/-- The fetch-and-select step never stashes. -/
theorem fetchBranchesToUpdate_no_stash (cfg : Config) (env : GitEnv) :
    GitCmd.stash ∉ (fetchBranchesToUpdate cfg env).2 := by
  unfold fetchBranchesToUpdate
  cases env.fetchRes with
  | error m => simp
  | ok u =>
    cases env.branchOut with
    | error m => simp
    | ok out =>
      by_cases hb : fetchBranchesCore cfg (splitLines out) = [] <;>
        simp [hb]

/-- A clean status output makes stashIfDirty a successful no-op beyond
the status query. -/
theorem stashIfDirty_clean (cfg : Config) (env : GitEnv)
    (h : env.statusOut = .ok "") :
    stashIfDirty cfg env = (.ok (), [.status]) := by
  simp [stashIfDirty, h]

/-- A dirty status output with stashing disabled makes stashIfDirty
return the errStashNotAllowed condition after only the status query. -/
theorem stashIfDirty_skip (cfg : Config) (env : GitEnv) (s : String)
    (h1 : env.statusOut = .ok s) (h2 : s ≠ "")
    (h3 : cfg.stashChanges = false) :
    stashIfDirty cfg env = (.error .stashNotAllowed, [.status]) := by
  simp [stashIfDirty, h1, h2, h3]

/-- If stashIfDirty issued the stash subprocess, the repository was dirty
and stashing was enabled. -/
theorem stashIfDirty_stash_iff (cfg : Config) (env : GitEnv)
    (hmem : GitCmd.stash ∈ (stashIfDirty cfg env).2) :
    cfg.stashChanges = true ∧ ∃ s, env.statusOut = .ok s ∧ s ≠ "" := by
  revert hmem
  unfold stashIfDirty
  cases h : env.statusOut with
  | error m => intro hmem; simp at hmem
  | ok s =>
    by_cases hs : s = ""
    · subst hs; intro hmem; simp at hmem
    · by_cases hc : cfg.stashChanges = true
      · intro _; exact ⟨hc, s, rfl, hs⟩
      · simp only [Bool.not_eq_true] at hc
        intro hmem
        simp [hs, hc] at hmem

/-- The event and trace of updateRepository once the stash and selection
steps have succeeded. -/
theorem updateRepository_ok_parts (cfg : Config) (env : GitEnv)
    (active fu : List String) (t1 t2 t3 : List GitCmd)
    (hs : stashIfDirty cfg env = (.ok (), t1))
    (hf : fetchBranchesToUpdate cfg env = (.ok active, t2))
    (hp : perBranchLoop env active = (fu, t3)) :
    (updateRepository cfg env).2.2 = t1 ++ (t2 ++ t3) ∧
    (updateRepository cfg env).1
      = (if fu.length = active.length then VizEvent.fail
        else if 0 < fu.length then
          VizEvent.warning (active.length - fu.length) active.length fu
        else VizEvent.success active.length) := by
  simp only [updateRepository, hs, hf, hp]
  by_cases hA : fu.length = active.length
  · simp [hA]
  · by_cases hB : 0 < fu.length
    · simp [hA, hB]
    · simp [hA, hB]

/-- Any stash issued by updateRepository was issued inside
stashIfDirty. -/
theorem updateRepository_stash_sub (cfg : Config) (env : GitEnv)
    (hmem : GitCmd.stash ∈ (updateRepository cfg env).2.2) :
    GitCmd.stash ∈ (stashIfDirty cfg env).2 := by
  have hnf := fetchBranchesToUpdate_no_stash cfg env
  rcases hs : stashIfDirty cfg env with ⟨rs, t1⟩
  rcases hf : fetchBranchesToUpdate cfg env with ⟨rf, t2⟩
  rw [hf] at hnf
  simp only at hnf ⊢
  cases rs with
  | error e =>
    have ht : (updateRepository cfg env).2.2 = t1 := by
      cases e <;> simp [updateRepository, hs]
    rw [ht] at hmem
    exact hmem
  | ok u =>
    cases rf with
    | error e2 =>
      have ht : (updateRepository cfg env).2.2 = t1 ++ t2 := by
        cases e2 <;> simp [updateRepository, hs, hf]
      rw [ht] at hmem
      rcases List.mem_append.1 hmem with h1 | h2
      · exact h1
      · exact absurd h2 hnf
    | ok active =>
      have hnp := perBranchLoop_no_stash env active
      rcases hp : perBranchLoop env active with ⟨fu, t3⟩
      rw [hp] at hnp
      simp only at hnp
      have ht :=
        (updateRepository_ok_parts cfg env active fu t1 t2 t3 hs hf hp).1
      rw [ht] at hmem
      rcases List.mem_append.1 hmem with h1 | h2
      · exact h1
      · rcases List.mem_append.1 h2 with h2a | h2b
        · exact absurd h2a hnf
        · exact absurd h2b hnp

/-- updateRepository on a repository that passed the stash and selection
steps reports the aggregate of the per-branch loop. -/
theorem updateRepository_ok_eq (cfg : Config) (env : GitEnv)
    (active : List String)
    (h1 : (stashIfDirty cfg env).1 = .ok ())
    (h2 : (fetchBranchesToUpdate cfg env).1 = .ok active) :
    (updateRepository cfg env).1 =
      (if ((perBranchLoop env active).1).length = active.length then
        VizEvent.fail
      else if 0 < ((perBranchLoop env active).1).length then
        VizEvent.warning (active.length - ((perBranchLoop env active).1).length)
          active.length ((perBranchLoop env active).1)
      else VizEvent.success active.length) := by
  rcases hs : stashIfDirty cfg env with ⟨rs, t1⟩
  rw [hs] at h1
  simp only at h1
  subst h1
  rcases hf : fetchBranchesToUpdate cfg env with ⟨rf, t2⟩
  rw [hf] at h2
  simp only at h2
  subst h2
  rcases hp : perBranchLoop env active with ⟨fu, t3⟩
  have := (updateRepository_ok_parts cfg env active fu t1 t2 t3 hs hf hp).2
  rw [this]

/-- The repository loop distributes over list append. -/
theorem rootLoop_append (cfg : Config) :
    ∀ xs ys : List GitEnv,
      rootLoop cfg (xs ++ ys) = rootLoop cfg xs ++ rootLoop cfg ys := by
  intro xs ys
  induction xs with
  | nil => rfl
  | cons e es ih => simp [rootLoop, ih]

/-- The repository loop reports one event per repository. -/
theorem rootLoop_length (cfg : Config) :
    ∀ xs : List GitEnv, (rootLoop cfg xs).length = xs.length := by
  intro xs
  induction xs with
  | nil => rfl
  | cons e es ih => simp [rootLoop, ih]

/-- updateRemote returns the repository value unchanged. -/
theorem updateRemote_state (env : GitEnv) (r : Repository) :
    (updateRemote env r).2.1 = r := by
  unfold updateRemote
  split <;> rfl

/-- repoIsDirty returns the repository value unchanged. -/
theorem repoIsDirty_state (env : GitEnv) (r : Repository) :
    (repoIsDirty env r).2.1 = r := by
  unfold repoIsDirty
  cases env.statusOut <;> rfl

/-- repoStash returns the repository value unchanged. -/
theorem repoStash_state (env : GitEnv) (r : Repository) :
    (repoStash env r).2.1 = r := rfl

/-- The updateBranch method of repository.go returns the repository value
unchanged. -/
theorem repoUpdateBranch_state (env : GitEnv) (r : Repository)
    (b : String) : (repoUpdateBranch env r b).2.1 = r := by
  unfold repoUpdateBranch
  cases env.checkoutRes b with
  | error m => rfl
  | ok u => cases env.pullRes b <;> rfl

/-- GetAllBranches returns the repository value unchanged. -/
theorem repoGetAllBranches_state (env : GitEnv) (r : Repository) :
    (repoGetAllBranches env r).2.1 = r := by
  rcases h : updateRemote env r with ⟨res, r1, t⟩
  have h1 : r1 = r := by
    have hu := updateRemote_state env r
    rw [h] at hu
    exact hu
  cases res with
  | error m => simp [repoGetAllBranches, h, h1]
  | ok u =>
    cases hb : env.branchOut <;> simp [repoGetAllBranches, h, hb, h1]

/-- The Update branch loop of repository.go returns the repository value
unchanged. -/
theorem repoUpdateList_state (env : GitEnv) :
    ∀ (bs : List String) (r : Repository),
      (repoUpdateList env r bs).2.1 = r := by
  intro bs
  induction bs with
  | nil => intro r; rfl
  | cons b rest ih =>
    intro r
    rcases h : repoUpdateBranch env r b with ⟨res, r1, t⟩
    have hb : r1 = r := by
      have hx := repoUpdateBranch_state env r b
      rw [h] at hx
      exact hx
    cases res with
    | error m => simp [repoUpdateList, h, hb]
    | ok u => simp [repoUpdateList, h, hb, ih]

/-- Update of repository.go returns the repository value unchanged. -/
theorem repoUpdate_state (env : GitEnv) (r : Repository)
    (bs : List String) : (repoUpdate env r bs).2.1 = r := by
  rcases h : updateRemote env r with ⟨res, r1, t⟩
  have h1 : r1 = r := by
    have hu := updateRemote_state env r
    rw [h] at hu
    exact hu
  cases res with
  | error m => simp [repoUpdate, h, h1]
  | ok u => simp [repoUpdate, h, h1, repoUpdateList_state]

/-- On a fresh repository value the memo flag never becomes true, so each
of n successive updateRemote calls runs the fetch-all subprocess. -/
theorem iterUpdateRemote_trace (env : GitEnv) (p : String) :
    ∀ n : Nat,
      (iterUpdateRemote env (newRepository p) n).2
        = List.replicate n GitCmd.fetchAll := by
  intro n
  induction n with
  | zero => rfl
  | succ k ih =>
    have h1 : updateRemote env (newRepository p)
        = (env.fetchRes, newRepository p, [GitCmd.fetchAll]) := by
      unfold updateRemote newRepository
      simp
    rcases hk : iterUpdateRemote env (newRepository p) k with ⟨r2, t2⟩
    rw [hk] at ih
    simp only at ih
    subst ih
    simp [iterUpdateRemote, h1, hk, List.replicate_succ]

/-- Claim C1: during per-branch update of one repository a failing branch
does not abort the loop — the failed names are exactly the branches whose
update fails, in order, every selected branch is still attempted (its
checkout appears in the trace), and for the concrete repository with
branches a, b, c where only b fails the reported outcome is the partial
warning with 2 succeeded out of 3 and failed list b. -/
theorem c1_no_abort (env : GitEnv) (bs : List String) :
    (perBranchLoop env bs).1 = bs.filter (updateFails env) ∧
    (∀ b, b ∈ bs → GitCmd.checkout b ∈ (perBranchLoop env bs).2) ∧
    updateRepository cfgAll envC1
      = (.warning 2 3 ["b"], none,
        [.status, .fetchAll, .branchList, .checkout "a", .pull,
          .checkout "b", .checkout "c", .pull]) :=
  ⟨perBranchLoop_failed env bs,
    fun b hb => perBranchLoop_checkout_mem env bs b hb,
    by decide⟩

/-- Witness for C1 at a concrete input: branch c is still attempted even
though branch b fails before it. -/
theorem c1_no_abort_witness :
    GitCmd.checkout "c" ∈ (perBranchLoop envC1 ["a", "b", "c"]).2 :=
  (c1_no_abort envC1 ["a", "b", "c"]).2.1 "c" (by decide)

/-- Claim C2: when the per-branch loop ran over a selection, the reported
outcome is Fail when every selected branch failed, the partial warning
with the succeeded count and the failed names when some but not all
failed, and success with the count when none failed. -/
theorem c2_aggregate_outcome (cfg : Config) (env : GitEnv)
    (active : List String)
    (h1 : (stashIfDirty cfg env).1 = .ok ())
    (h2 : (fetchBranchesToUpdate cfg env).1 = .ok active) :
    (updateRepository cfg env).1 =
      (if (active.filter (updateFails env)).length = active.length then
        VizEvent.fail
      else if 0 < (active.filter (updateFails env)).length then
        VizEvent.warning
          (active.length - (active.filter (updateFails env)).length)
          active.length (active.filter (updateFails env))
      else VizEvent.success active.length) := by
  rw [updateRepository_ok_eq cfg env active h1 h2, perBranchLoop_failed]

/-- Witness for C2 at a concrete input: a repository where every selected
branch fails to update reports Fail, not the partial warning. -/
theorem c2_aggregate_outcome_witness :
    (updateRepository cfgAll envFailAll).1 = VizEvent.fail := by
  have h := c2_aggregate_outcome cfgAll envFailAll ["a", "b"] rfl rfl
  rw [h]
  decide

/-- Claim C3: the repository loop attempts every repository in order —
the events around any one repository are independent of its outcome, one
event is reported per repository, and the run-level result is nil
whatever the per-repository outcomes were. -/
theorem c3_every_repo_attempted (cfg : Config) (pre : List GitEnv)
    (env : GitEnv) (post : List GitEnv) :
    rootLoop cfg (pre ++ env :: post)
      = rootLoop cfg pre
          ++ (updateRepository cfg env).1 :: rootLoop cfg post ∧
    (rootLoop cfg (pre ++ env :: post)).length
      = pre.length + 1 + post.length ∧
    (runLoopResult cfg (pre ++ env :: post)).1 = .ok () := by
  refine ⟨?_, ?_, rfl⟩
  · rw [rootLoop_append]
    rfl
  · rw [rootLoop_length]
    simp only [List.length_append, List.length_cons]
    omega

/-- Counterexample for C4 as stated: requesting the same existing name
twice yields a selection with that branch twice, which is not the subset
of the filtered branch list that the claim describes. -/
theorem c4_explicit_selection_cex :
    fetchBranchesCore cfgDup ["main"] = ["main", "main"] ∧
    specExplicitSelection cfgDup.requestedBranches
        (["main"].filter (fun l => !(discardLine l))) = ["main"] ∧
    fetchBranchesCore cfgDup ["main"]
      ≠ specExplicitSelection cfgDup.requestedBranches
          (["main"].filter (fun l => !(discardLine l))) :=
  ⟨by decide, by decide, by decide⟩

/-- Claim C4 as amended: in explicit mode with a duplicate-free requested
list, the selection is the subset of the filtered branch list whose name
appears in the requested list, in the branch-list order, absent requested
names being silently skipped; and an empty selection makes
fetchBranchesToUpdate return the distinct errNoBranch condition rather
than an empty success. -/
theorem c4_explicit_selection (cfg : Config) (lines : List String)
    (hall : cfg.allBranches = false) :
    (cfg.requestedBranches.Nodup →
      fetchBranchesCore cfg lines
        = specExplicitSelection cfg.requestedBranches
            (lines.filter (fun l => !(discardLine l)))) ∧
    (∀ (env : GitEnv) (out : String), env.fetchRes = .ok () →
      env.branchOut = .ok out →
      fetchBranchesCore cfg (splitLines out) = [] →
      (fetchBranchesToUpdate cfg env).1 = .error .noBranch) := by
  constructor
  · intro hnd
    exact fetchBranchesCore_explicit_nodup cfg hall hnd lines
  · intro env out hf hb hempty
    simp [fetchBranchesToUpdate, hf, hb, hempty]

/-- Witness for C4 at concrete inputs: branches main and feature-x with
requested main and master select exactly main, and a listing with no
matching branch yields the errNoBranch condition. -/
theorem c4_explicit_selection_witness :
    fetchBranchesCore cfgMainMaster ["main", "feature-x"]
      = specExplicitSelection cfgMainMaster.requestedBranches
          (["main", "feature-x"].filter (fun l => !(discardLine l))) ∧
    (fetchBranchesToUpdate cfgMainMaster envNoMatch).1
      = .error .noBranch := by
  constructor
  · exact (c4_explicit_selection cfgMainMaster ["main", "feature-x"]
      rfl).1 (by decide)
  · exact (c4_explicit_selection cfgMainMaster [] rfl).2 envNoMatch
      "dev\nfeature-x" rfl rfl (by decide)

/-- Counterexample for C5 as stated: a line containing a tab contains
embedded whitespace, so the claim discards it, but the code tests only
for a space character and keeps it. -/
theorem c5_filter_cex :
    specDiscardLine "a\tb" = true ∧
    discardLine "a\tb" = false ∧
    fetchBranchesCore cfgAll ["a\tb"] = ["a\tb"] ∧
    fetchBranchesCore cfgAll ["a\tb"]
      ≠ ["a\tb"].filter (fun l => !(specDiscardLine l)) :=
  ⟨by decide, by decide, by decide, by decide⟩

/-- Claim C5 as amended: the filtered local-branch list discards exactly
the listing lines that are empty, begin with refs/, heads/ or origin/, or
contain a space character; in particular the four example lines filter
down to exactly main. -/
theorem c5_filter (cfg : Config) (lines : List String)
    (hall : cfg.allBranches = true) :
    fetchBranchesCore cfg lines
      = lines.filter (fun l => !(discardLine l)) ∧
    fetchBranchesCore cfg ["refs/heads/main", "origin/main", "  ", "main"]
      = ["main"] := by
  refine ⟨fetchBranchesCore_allBranches cfg hall lines, ?_⟩
  rw [fetchBranchesCore_allBranches cfg hall]
  decide

/-- Witness for C5 at the concrete input of the claim. -/
theorem c5_filter_witness :
    fetchBranchesCore cfgAll
        ["refs/heads/main", "origin/main", "  ", "main"]
      = ["main"] :=
  (c5_filter cfgAll [] rfl).2

/-- Claim C6: the dirty decision procedure stashes only when the status
output is non-empty and stashing is enabled — a clean repository never
triggers the stash subprocess, and a dirty repository with stashing
disabled yields the skip outcome with only the status query issued, so no
fetch, checkout or pull is attempted. -/
theorem c6_dirty_decision (cfg : Config) (env : GitEnv) :
    (env.statusOut = .ok "" →
      GitCmd.stash ∉ (updateRepository cfg env).2.2) ∧
    (∀ s, env.statusOut = .ok s → s ≠ "" → cfg.stashChanges = false →
      updateRepository cfg env
        = (.infoSkipped, some .stashNotAllowed, [.status])) ∧
    (GitCmd.stash ∈ (updateRepository cfg env).2.2 →
      cfg.stashChanges = true ∧ ∃ s, env.statusOut = .ok s ∧ s ≠ "") := by
  refine ⟨?_, ?_, ?_⟩
  · intro h hmem
    have hsub := updateRepository_stash_sub cfg env hmem
    rw [stashIfDirty_clean cfg env h] at hsub
    simp at hsub
  · intro s h1 h2 h3
    have hs := stashIfDirty_skip cfg env s h1 h2 h3
    simp [updateRepository, hs]
  · intro hmem
    exact stashIfDirty_stash_iff cfg env
      (updateRepository_stash_sub cfg env hmem)

/-- Witness for C6 at concrete inputs: a clean repository never stashes,
and a dirty repository with stashing disabled is skipped after only the
status query. -/
theorem c6_dirty_decision_witness :
    GitCmd.stash ∉ (updateRepository cfgMainMaster envFetchOk).2.2 ∧
    updateRepository cfgMainMaster envDirtyW
      = (.infoSkipped, some .stashNotAllowed, [.status]) :=
  ⟨(c6_dirty_decision cfgMainMaster envFetchOk).1 rfl,
    (c6_dirty_decision cfgMainMaster envDirtyW).2.1 "M x.txt" rfl
      (by decide) rfl⟩

/-- Claim C7 evaluated on the code at the failing input: two successive
updateRemote calls on a fresh repository value issue the fetch-all
subprocess twice, because the remoteUpdated memo is never set, while a
single call issues it once. -/
theorem c7_fetch_memo_eval :
    (iterUpdateRemote envFetchOk (newRepository "repo") 2).2
      = [GitCmd.fetchAll, GitCmd.fetchAll] ∧
    (iterUpdateRemote envFetchOk (newRepository "repo") 1).2
      = [GitCmd.fetchAll] ∧
    (newRepository "repo").remoteUpdated = false :=
  ⟨by decide, by decide, by decide⟩

/-- Claim C8: updateBranch performs checkout then pull in that order, and
a failing checkout returns the checkout error with no pull attempted. -/
theorem c8_checkout_then_pull (env : GitEnv) (branch : String) :
    (∀ m, env.checkoutRes branch = .error m →
      updateBranch env branch
        = (.error (.exec m), [GitCmd.checkout branch])) ∧
    (env.checkoutRes branch = .ok () →
      (updateBranch env branch).2
        = [GitCmd.checkout branch, GitCmd.pull]) := by
  constructor
  · intro m h
    simp [updateBranch, h]
  · intro h
    exact updateBranch_trace_of_checkout_ok env branch h

/-- Witness for C8 at concrete inputs: a failing checkout returns its
error having issued only the checkout, and a succeeding checkout is
followed by the pull. -/
theorem c8_checkout_then_pull_witness :
    updateBranch envCheckoutFail "main"
      = (.error (.exec "conflict"), [GitCmd.checkout "main"]) ∧
    (updateBranch envFetchOk "main").2
      = [GitCmd.checkout "main", GitCmd.pull] :=
  ⟨(c8_checkout_then_pull envCheckoutFail "main").1 "conflict" rfl,
    (c8_checkout_then_pull envFetchOk "main").2 rfl⟩

/-- Claim C10: in explicit mode a name requested k times whose branch
appears once in the kept listing lines is selected k times, the
per-branch loop checks a branch out once per occurrence in the selection,
and with succeeding checkouts it pulls once per occurrence. -/
theorem c10_duplicate_requested (cfg : Config) (lines : List String)
    (b : String) (k : Nat) (env : GitEnv) (bs : List String) :
    (cfg.allBranches = false → discardLine b = false →
      lines.count b = 1 → cfg.requestedBranches.count b = k →
      (fetchBranchesCore cfg lines).count b = k) ∧
    (perBranchLoop env bs).2.count (GitCmd.checkout b) = bs.count b ∧
    ((∀ x ∈ bs, env.checkoutRes x = .ok ()) →
      (perBranchLoop env bs).2.count GitCmd.pull = bs.length) := by
  refine ⟨?_, perBranchLoop_count_checkout env b bs,
    perBranchLoop_count_pull env bs⟩
  intro hall hd hone hk
  rw [fetchBranchesCore_count cfg b hall hd lines, hone, hk, Nat.one_mul]

/-- Witness for C10 at concrete inputs: requesting main twice selects the
main branch twice, and updating the two occurrences pulls twice. -/
theorem c10_duplicate_requested_witness :
    (fetchBranchesCore cfgDupDev ["x y", "main"]).count "main" = 2 ∧
    (perBranchLoop envFetchOk ["main", "main"]).2.count GitCmd.pull
      = 2 := by
  constructor
  · exact (c10_duplicate_requested cfgDupDev ["x y", "main"] "main" 2
      envFetchOk []).1 rfl (by decide) (by decide) (by decide)
  · exact (c10_duplicate_requested cfgDupDev [] "main" 2 envFetchOk
      ["main", "main"]).2.2 (fun x _ => rfl)

/-- Claim C9: a repository value built by newRepository starts with the
remoteUpdated flag false, no operation ever changes the repository value,
and therefore each of any number of successive updateRemote calls on it
executes the fetch-all subprocess. -/
theorem c9_remote_updated_invariant :
    (∀ p, (newRepository p).remoteUpdated = false) ∧
    (∀ (env : GitEnv) (r : Repository), (updateRemote env r).2.1 = r ∧
      (repoIsDirty env r).2.1 = r ∧ (repoStash env r).2.1 = r ∧
      (repoGetAllBranches env r).2.1 = r ∧
      (∀ b, (repoUpdateBranch env r b).2.1 = r) ∧
      (∀ bs, (repoUpdate env r bs).2.1 = r)) ∧
    (∀ (env : GitEnv) (p : String) (n : Nat),
      (iterUpdateRemote env (newRepository p) n).2
        = List.replicate n GitCmd.fetchAll) :=
  ⟨fun _ => rfl,
    fun env r => ⟨updateRemote_state env r, repoIsDirty_state env r,
      repoStash_state env r, repoGetAllBranches_state env r,
      fun b => repoUpdateBranch_state env r b,
      fun bs => repoUpdate_state env r bs⟩,
    fun env p n => iterUpdateRemote_trace env p n⟩

end GitExt
